import Mathlib

/-!
Verification development for `git-clone-cache` (two Python scripts:
`populate_git_clone_cache.py` and `find_and_populate_git_clone_cache.py`).

The Python code is shallowly embedded: pure fragments become Lean functions,
the filesystem and the external `git` subprocess become explicit inputs
(oracles and state records), and the JSON index file `directory.json` is
modelled by its parsed content, an association list from URL strings to
cache-key strings whose serialized form (via `json.dump(..., sort_keys=True)`)
is modelled by the key-sorted association list.
-/

namespace GitCloneCache

/-! ### The directory.json index (`update_directory_json`, lines 118-136) -/

/-- Association-list lookup modelling Python `dict.get` on the parsed
`directory.json` mapping (first binding wins; a parsed JSON object has
unique keys). -/
def lookupA : List (String × String) → String → Option String
  | [], _ => none
  | (k, v) :: rest, u => if k = u then some v else lookupA rest u

/-- Python `mapping[url] = cache_key` on an insertion-ordered dict: replace
the value of an existing key in place, else append the new binding. -/
def setEntry : List (String × String) → String → String → List (String × String)
  | [], u, x => [(u, x)]
  | (k, v) :: rest, u, x =>
      if k = u then (k, x) :: rest else (k, v) :: setEntry rest u x

/-- Ordering of index entries by key, as performed by
`json.dump(mapping, f, indent=2, sort_keys=True)`. -/
def keyLE (a b : String × String) : Prop := a.1 ≤ b.1

instance : DecidableRel keyLE := fun a b =>
  inferInstanceAs (Decidable (a.1 ≤ b.1))

instance : IsTotal (String × String) keyLE := ⟨fun a b => le_total a.1 b.1⟩

instance : IsTrans (String × String) keyLE := ⟨fun _ _ _ h h' => le_trans h h'⟩

/-- The serialized form of the mapping written by `json.dump` with
`sort_keys=True`: the entries ordered by key.  Two equal values of this
function correspond to byte-identical file contents. -/
def sortedEntries (m : List (String × String)) : List (String × String) :=
  List.insertionSort keyLE m

/-- Embedding of `update_directory_json` (populate_git_clone_cache.py,
lines 118-136) after the read step: `m` is the parsed current mapping (the
read tolerates a missing or corrupt file by leaving `mapping = {}`).
Returns the new in-memory mapping together with `some` serialized file
content when a write happens, `none` when the update is skipped because the
stored value already equals `cache_key`. -/
def update_directory_json (m : List (String × String)) (url cache_key : String) :
    List (String × String) × Option (List (String × String)) :=
  if lookupA m url = some cache_key then
    (m, none)
  else
    let m' := setEntry m url cache_key
    (m', some (sortedEntries m'))

/-! ### Git subprocess commands and `populate_cache` (lines 139-180) -/

/-- The git invocations issued by the populator: `fetch --all` in a mirror,
`remote set-url origin <url>` in a mirror, and `clone --mirror <src> <dst>`. -/
inductive GitCmd where
  | fetchAll (mirror : String)
  | setUrl (mirror : String) (url : String)
  | cloneMirror (source : String) (dest : String)
deriving DecidableEq, Repr

/-- One observable side-effecting step of `populate_cache`: a git subprocess
(`run_git_command`) or a call to `update_directory_json`. -/
inductive Action where
  | git (c : GitCmd)
  | updIndex (url : String) (cache_key : String)
deriving DecidableEq, Repr

/-- Result of one `populate_cache` call: the ordered actions performed, the
resulting in-memory index mapping, the serialized index content written (if
any), and the boolean outcome returned to the caller. -/
structure PopResult where
  trace : List Action
  idx : List (String × String)
  written : Option (List (String × String))
  ok : Bool
deriving Repr

/-- Embedding of `populate_cache` (populate_git_clone_cache.py, lines
148-180).  `gitOk` is the success oracle for git subprocesses
(`run_git_command` returning `True` on exit status 0), `mirrorExists` is
`cache_mirror.exists()`, `name` is `cache_mirror.name` (the cache key, since
`cache_mirror = cache_dir / cache_key` in `main`), `src` is
`source_for_clone`, and `idx` is the parsed current `directory.json`
mapping. -/
def populate_cache (gitOk : GitCmd → Bool) (url name : String)
    (mirrorExists : Bool) (src : String) (idx : List (String × String)) :
    PopResult :=
  if mirrorExists then
    let updated := gitOk (GitCmd.fetchAll name)
    let r := update_directory_json idx url name
    { trace := [Action.git (GitCmd.fetchAll name),
                Action.git (GitCmd.setUrl name url),
                Action.updIndex url name],
      idx := r.1, written := r.2, ok := updated }
  else
    let cloned := gitOk (GitCmd.cloneMirror src name)
    if cloned then
      let r := update_directory_json idx url name
      { trace := [Action.git (GitCmd.cloneMirror src name),
                  Action.git (GitCmd.setUrl name url),
                  Action.updIndex url name],
        idx := r.1, written := r.2, ok := true }
    else
      { trace := [Action.git (GitCmd.cloneMirror src name)],
        idx := idx, written := none, ok := false }

/-! ### SHA-256 and `compute_cache_key` (lines 74-79)

`compute_cache_key` calls `hashlib.sha256(url.encode()).hexdigest()`.  The
Python standard library collaborators are embedded directly: `str.encode()`
is UTF-8 encoding of the string's code points, and `hashlib.sha256` is
SHA-256 as defined by FIPS 180-4, implemented here over `Nat` bytes and
32-bit words (`% 2 ^ 32`). -/

/-- UTF-8 encoding of a single Unicode code point, as `str.encode()` does
per character (Lean `Char` excludes surrogates, as Python `str` excludes
unpaired surrogates under the default `errors="strict"`). -/
def utf8Cp (c : Nat) : List Nat :=
  if c < 128 then [c]
  else if c < 2048 then
    [192 ||| (c >>> 6), 128 ||| (c &&& 63)]
  else if c < 65536 then
    [224 ||| (c >>> 12), 128 ||| ((c >>> 6) &&& 63), 128 ||| (c &&& 63)]
  else
    [240 ||| (c >>> 18), 128 ||| ((c >>> 12) &&& 63),
     128 ||| ((c >>> 6) &&& 63), 128 ||| (c &&& 63)]

/-- Embedding of Python `url.encode()`: the UTF-8 bytes of the string. -/
def strBytes (s : String) : List Nat :=
  s.data.flatMap (fun c => utf8Cp c.toNat)

/-- Truncation to a 32-bit word. -/
def w32 (n : Nat) : Nat := n % 4294967296

/-- Right rotation of a 32-bit word by `n` bits. -/
def rotr32 (n x : Nat) : Nat := w32 ((x >>> n) ||| (x <<< (32 - n)))

/-- Bitwise complement of a 32-bit word. -/
def not32 (x : Nat) : Nat := x ^^^ 4294967295

/-- SHA-256 choice function. -/
def ch256 (x y z : Nat) : Nat := (x &&& y) ^^^ (not32 x &&& z)

/-- SHA-256 majority function. -/
def maj256 (x y z : Nat) : Nat := (x &&& y) ^^^ (x &&& z) ^^^ (y &&& z)

/-- SHA-256 big sigma 0. -/
def bsig0 (x : Nat) : Nat := rotr32 2 x ^^^ rotr32 13 x ^^^ rotr32 22 x

/-- SHA-256 big sigma 1. -/
def bsig1 (x : Nat) : Nat := rotr32 6 x ^^^ rotr32 11 x ^^^ rotr32 25 x

/-- SHA-256 small sigma 0. -/
def ssig0 (x : Nat) : Nat := rotr32 7 x ^^^ rotr32 18 x ^^^ (x >>> 3)

/-- SHA-256 small sigma 1. -/
def ssig1 (x : Nat) : Nat := rotr32 17 x ^^^ rotr32 19 x ^^^ (x >>> 10)

/-- The 64 SHA-256 round constants, written in decimal. -/
def K256 : List Nat :=
  [1116352408, 1899447441, 3049323471, 3921009573, 961987163, 1508970993,
   2453635748, 2870763221, 3624381080, 310598401, 607225278, 1426881987,
   1925078388, 2162078206, 2614888103, 3248222580, 3835390401, 4022224774,
   264347078, 604807628, 770255983, 1249150122, 1555081692, 1996064986,
   2554220882, 2821834349, 2952996808, 3210313671, 3336571891, 3584528711,
   113926993, 338241895, 666307205, 773529912, 1294757372, 1396182291,
   1695183700, 1986661051, 2177026350, 2456956037, 2730485921, 2820302411,
   3259730800, 3345764771, 3516065817, 3600352804, 4094571909, 275423344,
   430227734, 506948616, 659060556, 883997877, 958139571, 1322822218,
   1537002063, 1747873779, 1955562222, 2024104815, 2227730452, 2361852424,
   2428436474, 2756734187, 3204031479, 3329325298]

/-- The 8 big-endian bytes of `n` (the 64-bit message length field). -/
def len8Bytes (n : Nat) : List Nat :=
  [(n >>> 56) % 256, (n >>> 48) % 256, (n >>> 40) % 256, (n >>> 32) % 256,
   (n >>> 24) % 256, (n >>> 16) % 256, (n >>> 8) % 256, n % 256]

/-- SHA-256 padding: append `0x80`, zeros to 56 mod 64, then the bit length
as 8 big-endian bytes. -/
def padMsg (msg : List Nat) : List Nat :=
  let L := msg.length
  let z := (119 - (L % 64)) % 64
  msg ++ [128] ++ List.replicate z 0 ++ len8Bytes (L * 8)

/-- Group bytes into big-endian 32-bit words. -/
def bytesToWords : List Nat → List Nat
  | b0 :: b1 :: b2 :: b3 :: rest =>
      (((b0 * 256 + b1) * 256 + b2) * 256 + b3) :: bytesToWords rest
  | _ => []

/-- Split a word list into blocks of 16 words. -/
def chunk16 : List Nat → List (List Nat)
  | [] => []
  | w :: ws =>
      ((w :: ws).take 16) :: chunk16 ((w :: ws).drop 16)
termination_by ws => ws.length
decreasing_by simp [List.length_drop]; omega

/-- Extend a 16-word block by `fuel` schedule words. -/
def extendW : Nat → List Nat → List Nat
  | 0, ws => ws
  | n + 1, ws =>
      let t := ws.length
      extendW n (ws ++ [w32 (ssig1 (ws.getD (t - 2) 0) + ws.getD (t - 7) 0 +
                             ssig0 (ws.getD (t - 15) 0) + ws.getD (t - 16) 0)])

/-- The 64-entry message schedule of a block. -/
def schedule (block : List Nat) : List Nat := extendW 48 block

/-- The eight 32-bit working variables of the SHA-256 compression. -/
structure H8 where
  a : Nat
  b : Nat
  c : Nat
  d : Nat
  e : Nat
  f : Nat
  g : Nat
  h : Nat
deriving Repr

/-- One SHA-256 round on the working variables. -/
def round256 (st : H8) (wk : Nat × Nat) : H8 :=
  let t1 := w32 (st.h + bsig1 st.e + ch256 st.e st.f st.g + wk.2 + wk.1)
  let t2 := w32 (bsig0 st.a + maj256 st.a st.b st.c)
  ⟨w32 (t1 + t2), st.a, st.b, st.c, w32 (st.d + t1), st.e, st.f, st.g⟩

/-- Compress one 16-word block into the hash state. -/
def compress (hs : H8) (block : List Nat) : H8 :=
  let fin := (List.zip (schedule block) K256).foldl round256 hs
  ⟨w32 (hs.a + fin.a), w32 (hs.b + fin.b), w32 (hs.c + fin.c),
   w32 (hs.d + fin.d), w32 (hs.e + fin.e), w32 (hs.f + fin.f),
   w32 (hs.g + fin.g), w32 (hs.h + fin.h)⟩

/-- The SHA-256 initial hash value, written in decimal. -/
def initH256 : H8 :=
  ⟨1779033703, 3144134277, 1013904242, 2773480762,
   1359893119, 2600822924, 528734635, 1541459225⟩

/-- The 4 big-endian bytes of a 32-bit word. -/
def wordBytes (w : Nat) : List Nat :=
  [(w >>> 24) % 256, (w >>> 16) % 256, (w >>> 8) % 256, w % 256]

/-- SHA-256 digest (32 bytes) of a byte string, per FIPS 180-4; embedding of
`hashlib.sha256(...).digest()`. -/
def sha256 (msg : List Nat) : List Nat :=
  let hf := (chunk16 (bytesToWords (padMsg msg))).foldl compress initH256
  ([hf.a, hf.b, hf.c, hf.d, hf.e, hf.f, hf.g, hf.h]).flatMap wordBytes

/-- The sixteen lowercase hex digit characters. -/
def hexChars : List Char := String.data "0123456789abcdef"

/-- The hex digit character of a nibble. -/
def hexDigitCh (n : Nat) : Char := hexChars.getD n '0'

/-- The two lowercase hex characters of a byte, high nibble first. -/
def byteToHex (b : Nat) : List Char := [hexDigitCh (b / 16), hexDigitCh (b % 16)]

/-- Lowercase hex encoding of a byte string, as `hexdigest()` renders the
digest. -/
def bytesToHex (bs : List Nat) : List Char := bs.flatMap byteToHex

/-- Embedding of `compute_cache_key` (populate_git_clone_cache.py, lines
74-79): `hashlib.sha256(url.encode()).hexdigest()`. -/
def compute_cache_key (url : String) : String :=
  String.mk (bytesToHex (sha256 (strBytes url)))

/-! ### Argument classification and the main loop (lines 206-270) -/

/-- The filesystem and subprocess facts `main` observes about one
command-line argument string: `Path(arg).exists()`, `Path(arg).is_dir()`,
`Path(arg).joinpath(".git").exists()` (so `is_local_repo` is
`isDir && hasGitSub`), and the result of `get_origin_url` (`none` both when
`git remote get-url origin` exits non-zero and when the subprocess raises). -/
structure ArgInfo where
  pathExists : Bool
  isDir : Bool
  hasGitSub : Bool
  originUrl : Option String
deriving DecidableEq, Repr

/-- Embedding of `is_local_repo` (lines 82-88) on the observed facts. -/
def is_local_repo (a : ArgInfo) : Bool := a.isDir && a.hasGitSub

/-- What `main`'s loop body decides to do with one argument
(lines 237-265), before any git subprocess runs. -/
inductive ArgOutcome where
  | skippedNonexistent
  | skippedNotRepo
  | skippedNoOrigin
  | populate (url : String) (source_for_clone : String) (cache_key : String)
deriving DecidableEq, Repr

/-- Embedding of the classification performed by `main`'s loop body
(populate_git_clone_cache.py, lines 237-265): nonexistent paths are skipped
with an error; an existing working copy resolves its origin URL (skipping on
`none`); an existing non-repo directory is skipped; any other existing path
falls to the URL branch with `url = source_for_clone = arg`. -/
def process_arg (a : ArgInfo) (arg : String) : ArgOutcome :=
  if !a.pathExists then ArgOutcome.skippedNonexistent
  else if is_local_repo a then
    match a.originUrl with
    | none => ArgOutcome.skippedNoOrigin
    | some url => ArgOutcome.populate url arg (compute_cache_key url)
  else if a.isDir then ArgOutcome.skippedNotRepo
  else ArgOutcome.populate arg arg (compute_cache_key arg)

/-- The mutable world state threaded through `main`'s loop: the set of
mirror directory names present under the cache root, and the parsed content
of `directory.json`.  A successful `git clone --mirror` creates its
destination directory, so the mirror name is added exactly when the clone
subprocess succeeds. -/
structure St where
  mirrors : List String
  idx : List (String × String)
deriving DecidableEq, Repr

/-- One iteration of `main`'s loop on one argument: classify, and on the
populate branch run `populate_cache` with `cache_mirror = cache_dir /
cache_key` (so `mirrorExists` is membership of the key in the existing
mirrors and the mirror name is the cache key).  Returns the new state, the
classification outcome, and the actions performed. -/
def step (gitOk : GitCmd → Bool) (s : St) (x : ArgInfo × String) :
    St × ArgOutcome × List Action :=
  match process_arg x.1 x.2 with
  | ArgOutcome.populate url src key =>
      let mirrorExists := decide (key ∈ s.mirrors)
      let r := populate_cache gitOk url key mirrorExists src s.idx
      ({ mirrors := if !mirrorExists && r.ok then key :: s.mirrors else s.mirrors,
         idx := r.idx },
       ArgOutcome.populate url src key, r.trace)
  | o => (s, o, [])

/-- `main`'s loop over the whole argument list, collecting the per-argument
outcomes. -/
def runArgs (gitOk : GitCmd → Bool) (s : St) :
    List (ArgInfo × String) → St × List ArgOutcome
  | [] => (s, [])
  | x :: rest =>
      let r := step gitOk s x
      let t := runArgs gitOk r.1 rest
      (t.1, r.2.1 :: t.2)

/-- Embedding of `main` (populate_git_clone_cache.py, lines 206-270):
`real_git` is `find_real_git()`'s result, `execOk` the `os.access(..,
X_OK)` oracle.  Exit code 1 on a missing or non-executable git binary, exit
code 1 on an empty argument list, and otherwise the loop runs over all
arguments and the script falls off the end of `main` with exit code 0
(assuming, as the model does, that `cache_dir.mkdir` and the log-file open
succeed).  Returns the exit code and the per-argument outcomes. -/
def main_run (real_git : Option String) (execOk : String → Bool)
    (gitOk : GitCmd → Bool) (s : St) (args : List (ArgInfo × String)) :
    Nat × List ArgOutcome :=
  match real_git with
  | none => (1, [])
  | some g =>
      if !execOk g then (1, [])
      else if args.isEmpty then (1, [])
      else (0, (runArgs gitOk s args).2)

/-! ### Discovery (`find_and_populate_git_clone_cache.py`, lines 82-96)

The filesystem is modelled as a finitely-branching tree; a directory entry
records whether it is a symbolic link (to a directory).  `os.walk(root,
followlinks=False)` is modelled as a structural traversal producing, per
visited directory, the code's two repo checks and the in-place prune of the
`dirs` list; paths are modelled as the list of path segments appended to the
root prefix (`os.walk` builds each subdirectory path by joining exactly one
name segment). -/

mutual

/-- A filesystem node: a directory (with link flag and children, in OS
listing order) or a non-directory entry. -/
inductive FSTree where
  | dir (name : String) (isLink : Bool) (children : FSForest) : FSTree
  | file (name : String) : FSTree

/-- A list of sibling filesystem nodes. -/
inductive FSForest where
  | nil : FSForest
  | cons (t : FSTree) (ts : FSForest) : FSForest

end

/-- The name of a node. -/
def FSTree.fname : FSTree → String
  | FSTree.dir n _ _ => n
  | FSTree.file n => n

/-- Whether a node is a directory entry (symlinked directories included, as
`os.walk` lists them in `dirs`). -/
def FSTree.isDirNode : FSTree → Bool
  | FSTree.dir _ _ _ => true
  | FSTree.file _ => false

/-- Whether a node is a symbolic link. -/
def FSTree.linkq : FSTree → Bool
  | FSTree.dir _ l _ => l
  | FSTree.file _ => false

/-- The names of the directory children, in order: the initial `dirs` list
of `os.walk`. -/
def dirNames : FSForest → List String
  | FSForest.nil => []
  | FSForest.cons t ts =>
      (if t.isDirNode then [t.fname] else []) ++ dirNames ts

/-- The prune predicate of the `dirs[:] = [...]` filter (lines 88-92): keep
a directory entry whose name is neither `.git` nor `node_modules` and which
is not a symbolic link. -/
def keep (t : FSTree) : Bool :=
  t.isDirNode && !(t.fname = ".git" || t.fname = "node_modules") && !t.linkq

/-- The names of the pruned `dirs` list (used by the second, re-checked
`'.git' in dirs` test, lines 93-96). -/
def prunedDirNames : FSForest → List String
  | FSForest.nil => []
  | FSForest.cons t ts =>
      (if keep t then [t.fname] else []) ++ prunedDirNames ts

/-- Membership of a node in a forest. -/
inductive MemF : FSTree → FSForest → Prop where
  | head (t : FSTree) (ts : FSForest) : MemF t (FSForest.cons t ts)
  | tail (t u : FSTree) (ts : FSForest) : MemF t ts → MemF t (FSForest.cons u ts)

mutual

/-- Embedding of the repo-collecting `os.walk` loop of `main`
(find_and_populate_git_clone_cache.py, lines 82-96) on one directory node:
append the current path if `.git` is among the (pre-prune) directory names,
prune, append again if `.git` survived the prune (it never does), then
recurse into the kept children in order.  A non-directory node contributes
nothing. -/
def walkRepos (pfx : List String) : FSTree → List (List String)
  | FSTree.file _ => []
  | FSTree.dir _ _ cs =>
      (if ".git" ∈ dirNames cs then [pfx] else []) ++
      (if ".git" ∈ prunedDirNames cs then [pfx] else []) ++
      walkForest pfx cs

/-- Traversal of the children of a directory: `os.walk` recurses exactly
into the entries that survived the in-place prune, in order. -/
def walkForest (pfx : List String) : FSForest → List (List String)
  | FSForest.nil => []
  | FSForest.cons c cs =>
      (if keep c then walkRepos (pfx ++ [c.fname]) c else []) ++
      walkForest pfx cs

end

mutual

/-- All entry names of a directory's children (directories and files); on a
real filesystem these are pairwise distinct. -/
def allNames : FSForest → List String
  | FSForest.nil => []
  | FSForest.cons t ts => t.fname :: allNames ts

end

mutual

/-- Well-formedness of a tree as a filesystem: in every directory the entry
names are pairwise distinct. -/
def namesUniqT : FSTree → Bool
  | FSTree.file _ => true
  | FSTree.dir _ _ cs => decide ((allNames cs).Nodup) && namesUniqF cs

/-- Well-formedness of every tree of a forest. -/
def namesUniqF : FSForest → Bool
  | FSForest.nil => true
  | FSForest.cons t ts => namesUniqT t && namesUniqF ts

end

/-- A relative segment path from a node to a discovered working copy: every
step descends into a child that survives the prune (a non-symlink directory
not named `.git` or `node_modules`), and the final directory directly
contains a `.git` directory entry. -/
inductive ReachRepo : FSTree → List String → Prop where
  | here (n : String) (l : Bool) (cs : FSForest) :
      ".git" ∈ dirNames cs → ReachRepo (FSTree.dir n l cs) []
  | step (n : String) (l : Bool) (cs : FSForest) (c : FSTree)
      (rest : List String) : MemF c cs → keep c = true → ReachRepo c rest →
      ReachRepo (FSTree.dir n l cs) (c.fname :: rest)

/-- A small concrete filesystem: a root working copy containing a nested
working copy `sub`, a repo hidden in `node_modules`, and a repo behind a
symlinked directory. -/
def exTree : FSTree :=
  FSTree.dir "root" false
    (FSForest.cons (FSTree.dir ".git" false FSForest.nil)
      (FSForest.cons
        (FSTree.dir "sub" false
          (FSForest.cons (FSTree.dir ".git" false FSForest.nil) FSForest.nil))
        (FSForest.cons
          (FSTree.dir "node_modules" false
            (FSForest.cons
              (FSTree.dir "dep" false
                (FSForest.cons (FSTree.dir ".git" false FSForest.nil)
                  FSForest.nil))
              FSForest.nil))
          (FSForest.cons
            (FSTree.dir "link" true
              (FSForest.cons (FSTree.dir ".git" false FSForest.nil)
                FSForest.nil))
            FSForest.nil))))

/-! ### Lemmas about the index -/

theorem lookupA_setEntry (m : List (String × String)) (u k v : String) :
    lookupA (setEntry m u k) v = if v = u then some k else lookupA m v := by
  induction m with
  | nil =>
      by_cases h : v = u
      · simp [setEntry, lookupA, h]
      · have h' : ¬u = v := fun hh => h hh.symm
        simp [setEntry, lookupA, h, h']
  | cons p rest ih =>
      obtain ⟨pk, pv⟩ := p
      by_cases h1 : pk = u
      · subst h1
        by_cases h2 : v = pk
        · simp [setEntry, lookupA, h2]
        · have h2' : ¬pk = v := fun hh => h2 hh.symm
          simp [setEntry, lookupA, h2, h2']
      · by_cases h2 : pk = v
        · subst h2
          simp [setEntry, lookupA, h1]
        · simp [setEntry, lookupA, h1, h2, ih]

theorem sorted_sortedEntries (m : List (String × String)) :
    List.Sorted keyLE (sortedEntries m) :=
  List.sorted_insertionSort keyLE m

/-- C5 helper: the two possible results of one index update. -/
theorem update_directory_json_eq (m : List (String × String)) (u k : String) :
    update_directory_json m u k =
      if lookupA m u = some k then (m, none)
      else (setEntry m u k, some (sortedEntries (setEntry m u k))) := by
  by_cases h : lookupA m u = some k <;> simp [update_directory_json, h]

/-- C5: the index update writes only when the stored value differs: when
`index[url]` already equals `cache_key` nothing is written and the mapping
is unchanged; otherwise the new mapping binds `url` to `cache_key` and the
file written is the whole mapping serialized with sorted keys; immediately
repeating the same update never writes; and every written serialization is
key-sorted. -/
theorem update_directory_json_idempotent (m : List (String × String))
    (u k : String) :
    (lookupA m u = some k → update_directory_json m u k = (m, none)) ∧
    (lookupA m u ≠ some k →
      update_directory_json m u k =
        (setEntry m u k, some (sortedEntries (setEntry m u k)))) ∧
    (update_directory_json (update_directory_json m u k).1 u k).2 = none ∧
    (∀ w, (update_directory_json m u k).2 = some w → List.Sorted keyLE w) := by
  refine ⟨fun h => by simp [update_directory_json, h],
          fun h => by simp [update_directory_json, h], ?_, ?_⟩
  · by_cases h : lookupA m u = some k
    · simp [update_directory_json, h]
    · simp [update_directory_json, h, lookupA_setEntry]
  · intro w hw
    by_cases h : lookupA m u = some k
    · simp [update_directory_json, h] at hw
    · simp [update_directory_json, h] at hw
      subst hw
      exact sorted_sortedEntries _

/-- C5 witness: concrete instances of the no-write, write, and
repeated-update branches. -/
theorem update_directory_json_idempotent_wit :
    update_directory_json [("u", "k")] "u" "k" = ([("u", "k")], none) ∧
    update_directory_json [] "u" "k" =
      ([("u", "k")], some (sortedEntries [("u", "k")])) ∧
    (update_directory_json (update_directory_json [] "u" "k").1 "u" "k").2 =
      none :=
  ⟨(update_directory_json_idempotent [("u", "k")] "u" "k").1 (by decide),
   (update_directory_json_idempotent [] "u" "k").2.1 (by decide),
   (update_directory_json_idempotent [] "u" "k").2.2.1⟩

/-- C10: an index update for `u` touches only the entry of `u`: lookups of
every other URL are unchanged, the entry for `u` is bound to `k`
afterwards, and no entry is removed. -/
theorem update_directory_json_frame (m : List (String × String))
    (u k : String) :
    (∀ v, v ≠ u →
      lookupA (update_directory_json m u k).1 v = lookupA m v) ∧
    lookupA (update_directory_json m u k).1 u = some k ∧
    (∀ v x, lookupA m v = some x →
      ∃ y, lookupA (update_directory_json m u k).1 v = some y) := by
  have hmain : ∀ v, lookupA (update_directory_json m u k).1 v =
      if v = u then some k else lookupA m v := by
    intro v
    by_cases h : lookupA m u = some k
    · by_cases hv : v = u <;> simp [update_directory_json, h, hv]
    · simp [update_directory_json, h, lookupA_setEntry]
  refine ⟨fun v hv => by simp [hmain, hv], by simp [hmain], ?_⟩
  intro v x hx
  by_cases hv : v = u
  · exact ⟨k, by simp [hmain, hv]⟩
  · exact ⟨x, by simp [hmain, hv, hx]⟩

/-- C10 witness: updating `u` leaves the entry of `v` intact, binds `u`,
and removes nothing. -/
theorem update_directory_json_frame_wit :
    lookupA (update_directory_json [("v", "x")] "u" "k").1 "v" =
      lookupA [("v", "x")] "v" ∧
    lookupA (update_directory_json [("v", "x")] "u" "k").1 "u" = some "k" ∧
    ∃ y, lookupA (update_directory_json [("v", "x")] "u" "k").1 "v" = some y :=
  ⟨(update_directory_json_frame [("v", "x")] "u" "k").1 "v" (by decide),
   (update_directory_json_frame [("v", "x")] "u" "k").2.1,
   (update_directory_json_frame [("v", "x")] "u" "k").2.2 "v" "x" (by decide)⟩

/-! ### Theorems about `populate_cache` and the main loop -/

/-- C2 counterexample: when the mirror is absent and the clone subprocess
fails, `populate_cache` performs only the clone attempt — the origin-URL
fix-up and the index update are not attempted — and reports failure.  This
refutes the claim that both lifecycle transitions always end with the index
update and origin fix-up. -/
theorem clone_failure_skips_fixups :
    (populate_cache (fun _ => false) "https://example.com/repo.git" "k"
        false "/src" []).trace =
      [Action.git (GitCmd.cloneMirror "/src" "k")] ∧
    Action.updIndex "https://example.com/repo.git" "k" ∉
      (populate_cache (fun _ => false) "https://example.com/repo.git" "k"
        false "/src" []).trace ∧
    Action.git (GitCmd.setUrl "k" "https://example.com/repo.git") ∉
      (populate_cache (fun _ => false) "https://example.com/repo.git" "k"
        false "/src" []).trace ∧
    (populate_cache (fun _ => false) "https://example.com/repo.git" "k"
        false "/src" []).ok = false := by
  refine ⟨by simp [populate_cache], ?_, ?_, by simp [populate_cache]⟩ <;>
    simp [populate_cache]

/-- C2 as amended: in the fetch transition (mirror present) the origin
fix-up and index update are attempted regardless of the fetch subprocess's
success and the reported outcome is the fetch's success; in the clone
transition (mirror absent) they are performed exactly when the clone
succeeds, and the reported outcome is the clone's success. -/
theorem populate_cache_fixups (g : GitCmd → Bool) (url name src : String)
    (idx : List (String × String)) :
    (Action.updIndex url name ∈
        (populate_cache g url name true src idx).trace ∧
      Action.git (GitCmd.setUrl name url) ∈
        (populate_cache g url name true src idx).trace ∧
      (populate_cache g url name true src idx).ok =
        g (GitCmd.fetchAll name)) ∧
    (g (GitCmd.cloneMirror src name) = true →
      Action.updIndex url name ∈
          (populate_cache g url name false src idx).trace ∧
        Action.git (GitCmd.setUrl name url) ∈
          (populate_cache g url name false src idx).trace ∧
        (populate_cache g url name false src idx).ok = true) ∧
    (g (GitCmd.cloneMirror src name) = false →
      (populate_cache g url name false src idx).trace =
          [Action.git (GitCmd.cloneMirror src name)] ∧
        (populate_cache g url name false src idx).ok = false) := by
  refine ⟨⟨?_, ?_, ?_⟩, fun h => ⟨?_, ?_, ?_⟩, fun h => ⟨?_, ?_⟩⟩
  · simp [populate_cache]
  · simp [populate_cache]
  · simp [populate_cache]
  · simp [populate_cache, h]
  · simp [populate_cache, h]
  · simp [populate_cache, h]
  · simp [populate_cache, h]
  · simp [populate_cache, h]

/-- C2 amended witness: concrete fetch-failure and clone-success/failure
instances. -/
theorem populate_cache_fixups_wit :
    (Action.updIndex "u" "k" ∈
      (populate_cache (fun _ => false) "u" "k" true "s" []).trace) ∧
    (Action.updIndex "u" "k" ∈
      (populate_cache (fun _ => true) "u" "k" false "s" []).trace) ∧
    (populate_cache (fun _ => false) "u" "k" false "s" []).trace =
      [Action.git (GitCmd.cloneMirror "s" "k")] :=
  ⟨(populate_cache_fixups (fun _ => false) "u" "k" "s" []).1.1,
   ((populate_cache_fixups (fun _ => true) "u" "k" "s" []).2.1 rfl).1,
   ((populate_cache_fixups (fun _ => false) "u" "k" "s" []).2.2 rfl).1⟩

/-- C4: mirror absent means a mirror-style clone from the resolved source
followed (on success only) by setting the origin remote to the canonical
URL and the index update; mirror present means an all-refs fetch followed
by the idempotent origin re-set and the index update, with no clone command
ever issued; a local reference resolves to its origin URL with the local
path as clone source, and a URL reference uses the argument string as both
canonical URL and clone source. -/
theorem populate_create_or_update (g : GitCmd → Bool) (url name src : String)
    (idx : List (String × String)) :
    (populate_cache g url name true src idx).trace =
      [Action.git (GitCmd.fetchAll name),
       Action.git (GitCmd.setUrl name url),
       Action.updIndex url name] ∧
    (populate_cache g url name false src idx).trace =
      (if g (GitCmd.cloneMirror src name) then
        [Action.git (GitCmd.cloneMirror src name),
         Action.git (GitCmd.setUrl name url),
         Action.updIndex url name]
      else [Action.git (GitCmd.cloneMirror src name)]) ∧
    (∀ arg u : String,
      process_arg ⟨true, true, true, some u⟩ arg =
        ArgOutcome.populate u arg (compute_cache_key u)) ∧
    (∀ arg : String,
      process_arg ⟨true, false, false, none⟩ arg =
        ArgOutcome.populate arg arg (compute_cache_key arg)) := by
  refine ⟨by simp [populate_cache], ?_, ?_, ?_⟩
  · by_cases h : g (GitCmd.cloneMirror src name) <;> simp [populate_cache, h]
  · intro arg u
    simp [process_arg, is_local_repo]
  · intro arg
    simp [process_arg, is_local_repo]

/-- C1: the code evaluated at the failing input.  A reference string that is
not an existing filesystem path — which every raw URL is — is reported as
`Path does not exist` and skipped by `main` (lines 241-243); it never
reaches the URL branch, so it is not used verbatim as canonical URL, cache
key source, or clone source. -/
theorem nonexistent_arg_never_url :
    process_arg ⟨false, false, false, none⟩ "https://example.com/repo.git" =
      ArgOutcome.skippedNonexistent ∧
    ∀ u s k : String,
      process_arg ⟨false, false, false, none⟩ "https://example.com/repo.git" ≠
        ArgOutcome.populate u s k := by
  refine ⟨by simp [process_arg], ?_⟩
  intro u s k
  simp [process_arg]

theorem runArgs_append (g : GitCmd → Bool) (s : St)
    (l1 l2 : List (ArgInfo × String)) :
    runArgs g s (l1 ++ l2) =
      ((runArgs g (runArgs g s l1).1 l2).1,
       (runArgs g s l1).2 ++ (runArgs g (runArgs g s l1).1 l2).2) := by
  induction l1 generalizing s with
  | nil => simp [runArgs]
  | cons x rest ih => simp [runArgs, ih]

/-- C6: a local working copy with no origin remote is skipped with a
warning outcome: its loop iteration changes neither the mirrors nor the
index and issues no git command, and the surrounding argument list is
processed exactly as if continuing past it. -/
theorem no_origin_skipped (g : GitCmd → Bool) (s : St) (a : ArgInfo)
    (arg : String) (pre post : List (ArgInfo × String))
    (h1 : a.pathExists = true) (h2 : a.isDir = true) (h3 : a.hasGitSub = true)
    (h4 : a.originUrl = none) :
    step g s (a, arg) = (s, ArgOutcome.skippedNoOrigin, []) ∧
    runArgs g s (pre ++ (a, arg) :: post) =
      ((runArgs g (runArgs g s pre).1 post).1,
       (runArgs g s pre).2 ++
         ArgOutcome.skippedNoOrigin :: (runArgs g (runArgs g s pre).1 post).2) := by
  have hstep : step g s (a, arg) = (s, ArgOutcome.skippedNoOrigin, []) := by
    simp [step, process_arg, is_local_repo, h1, h2, h3, h4]
  refine ⟨hstep, ?_⟩
  rw [runArgs_append]
  have hmid : ∀ s' : St, runArgs g s' ((a, arg) :: post) =
      ((runArgs g s' post).1,
       ArgOutcome.skippedNoOrigin :: (runArgs g s' post).2) := by
    intro s'
    have hstep' : step g s' (a, arg) = (s', ArgOutcome.skippedNoOrigin, []) := by
      simp [step, process_arg, is_local_repo, h1, h2, h3, h4]
    simp [runArgs, hstep']
  simp [hmid]

/-- C6 witness: a concrete no-origin working copy between two URL-branch
arguments is skipped while both neighbours are still processed. -/
theorem no_origin_skipped_wit :
    step (fun _ => true) ⟨[], []⟩ (⟨true, true, true, none⟩, "/repo") =
      (⟨[], []⟩, ArgOutcome.skippedNoOrigin, []) ∧
    runArgs (fun _ => true) ⟨[], []⟩
        ([] ++ (⟨true, true, true, none⟩, "/repo") :: []) =
      ((runArgs (fun _ => true)
          (runArgs (fun _ => true) ⟨[], []⟩ []).1 []).1,
       (runArgs (fun _ => true) ⟨[], []⟩ []).2 ++
         ArgOutcome.skippedNoOrigin ::
           (runArgs (fun _ => true)
             (runArgs (fun _ => true) ⟨[], []⟩ []).1 []).2) :=
  no_origin_skipped (fun _ => true) ⟨[], []⟩ ⟨true, true, true, none⟩
    "/repo" [] [] rfl rfl rfl rfl

/-- C9: the populate invocation exits 0 after processing any non-empty
argument list when a usable git binary was found, whatever the
per-reference outcomes; it exits 1 on an empty argument list; and it exits
1 when git is not locatable or not executable. -/
theorem main_exit_codes (rg : Option String) (ex : String → Bool)
    (g : GitCmd → Bool) (s : St) (args : List (ArgInfo × String)) :
    (∀ p, rg = some p → ex p = true → args ≠ [] →
      (main_run rg ex g s args).1 = 0) ∧
    (args = [] → (main_run rg ex g s args).1 = 1) ∧
    (rg = none → (main_run rg ex g s args).1 = 1) ∧
    (∀ p, rg = some p → ex p = false → (main_run rg ex g s args).1 = 1) := by
  refine ⟨?_, ?_, ?_, ?_⟩
  · intro p hp hex hne
    subst hp
    simp [main_run, hex, hne]
  · intro h
    subst h
    cases rg with
    | none => simp [main_run]
    | some p => by_cases hex : ex p <;> simp [main_run, hex]
  · intro h
    subst h
    simp [main_run]
  · intro p hp hex
    subst hp
    simp [main_run, hex]

/-- C9 witness: concrete exit codes for a one-argument run with a usable
git, an empty argument list, a missing git, and a non-executable git. -/
theorem main_exit_codes_wit :
    (main_run (some "/usr/bin/git") (fun _ => true) (fun _ => false) ⟨[], []⟩
      [(⟨false, false, false, none⟩, "x")]).1 = 0 ∧
    (main_run (some "/usr/bin/git") (fun _ => true) (fun _ => false) ⟨[], []⟩
      []).1 = 1 ∧
    (main_run none (fun _ => true) (fun _ => false) ⟨[], []⟩
      [(⟨false, false, false, none⟩, "x")]).1 = 1 ∧
    (main_run (some "/usr/bin/git") (fun _ => false) (fun _ => false) ⟨[], []⟩
      [(⟨false, false, false, none⟩, "x")]).1 = 1 :=
  ⟨(main_exit_codes (some "/usr/bin/git") (fun _ => true) (fun _ => false)
      ⟨[], []⟩ [(⟨false, false, false, none⟩, "x")]).1 "/usr/bin/git" rfl rfl
      (by simp),
   (main_exit_codes (some "/usr/bin/git") (fun _ => true) (fun _ => false)
      ⟨[], []⟩ []).2.1 rfl,
   (main_exit_codes none (fun _ => true) (fun _ => false) ⟨[], []⟩
      [(⟨false, false, false, none⟩, "x")]).2.2.1 rfl,
   (main_exit_codes (some "/usr/bin/git") (fun _ => false) (fun _ => false)
      ⟨[], []⟩ [(⟨false, false, false, none⟩, "x")]).2.2.2 "/usr/bin/git" rfl
      rfl⟩

/-! ### Lemmas about discovery -/

theorem keep_props (c : FSTree) (h : keep c = true) :
    c.isDirNode = true ∧ c.fname ≠ ".git" ∧ c.fname ≠ "node_modules" ∧
      c.linkq = false := by
  simp only [keep, Bool.and_eq_true, Bool.not_eq_true', decide_eq_true_eq,
    Bool.or_eq_false_iff, decide_eq_false_iff_not] at h
  exact ⟨h.1.1, h.1.2.1, h.1.2.2, h.2⟩

theorem prunedDirNames_no_git (cs : FSForest) : ".git" ∉ prunedDirNames cs := by
  match cs with
  | FSForest.nil => simp [prunedDirNames]
  | FSForest.cons c cs' =>
      have ih := prunedDirNames_no_git cs'
      by_cases h : keep c
      · have hc := (keep_props c h).2.1
        simp [prunedDirNames, h, ih]
        exact fun hh => hc hh.symm
      · simp [prunedDirNames, h, ih]

theorem memF_fname (c : FSTree) (cs : FSForest) (h : MemF c cs) :
    c.fname ∈ allNames cs := by
  induction h with
  | head ts => simp [allNames]
  | tail u ts hm ih => simp [allNames, ih]

mutual

theorem walkRepos_sound (t : FSTree) (pfx p : List String)
    (hp : p ∈ walkRepos pfx t) :
    ∃ rel, p = pfx ++ rel ∧ ReachRepo t rel := by
  match t with
  | FSTree.file n => simp [walkRepos] at hp
  | FSTree.dir n l cs =>
      simp only [walkRepos, List.mem_append] at hp
      rcases hp with (hp | hp) | hp
      · by_cases h : ".git" ∈ dirNames cs
        · simp [h] at hp
          exact ⟨[], by simp [hp], ReachRepo.here n l cs h⟩
        · simp [h] at hp
      · by_cases h : ".git" ∈ prunedDirNames cs
        · exact absurd h (prunedDirNames_no_git cs)
        · simp [h] at hp
      · obtain ⟨c, rel, hmem, hkeep, hpe, hrr⟩ := walkForest_sound cs pfx p hp
        exact ⟨c.fname :: rel, hpe, ReachRepo.step n l cs c rel hmem hkeep hrr⟩

theorem walkForest_sound (cs : FSForest) (pfx p : List String)
    (hp : p ∈ walkForest pfx cs) :
    ∃ c rel, MemF c cs ∧ keep c = true ∧ p = pfx ++ (c.fname :: rel) ∧
      ReachRepo c rel := by
  match cs with
  | FSForest.nil => simp [walkForest] at hp
  | FSForest.cons c cs' =>
      simp only [walkForest, List.mem_append] at hp
      rcases hp with hp | hp
      · by_cases hk : keep c
        · simp only [hk, if_true] at hp
          obtain ⟨rel, hpe, hrr⟩ := walkRepos_sound c (pfx ++ [c.fname]) p hp
          exact ⟨c, rel, MemF.head c cs', hk, by simp [hpe], hrr⟩
        · simp [hk] at hp
      · obtain ⟨c', rel, hm, hk, hpe, hrr⟩ := walkForest_sound cs' pfx p hp
        exact ⟨c', rel, MemF.tail c' c cs' hm, hk, hpe, hrr⟩

end

theorem mem_walkForest_of_child (cs : FSForest) (c : FSTree)
    (pfx p : List String) (hm : MemF c cs) (hk : keep c = true)
    (hp : p ∈ walkRepos (pfx ++ [c.fname]) c) :
    p ∈ walkForest pfx cs := by
  induction hm with
  | head ts =>
      simp only [walkForest, List.mem_append, hk, if_true]
      exact Or.inl hp
  | tail u ts hmem ih =>
      simp only [walkForest, List.mem_append]
      exact Or.inr ih

theorem walkRepos_complete (t : FSTree) (rel : List String)
    (hrr : ReachRepo t rel) : ∀ pfx, pfx ++ rel ∈ walkRepos pfx t := by
  induction hrr with
  | here n l cs hg =>
      intro pfx
      simp [walkRepos, hg]
  | step n l cs c rest hm hk hrr ih =>
      intro pfx
      have h2 : pfx ++ (c.fname :: rest) = (pfx ++ [c.fname]) ++ rest := by
        simp
      rw [h2]
      simp only [walkRepos, List.mem_append]
      exact Or.inr
        (mem_walkForest_of_child cs c pfx _ hm hk (ih (pfx ++ [c.fname])))

theorem reachRepo_segments (t : FSTree) (rel : List String)
    (hrr : ReachRepo t rel) :
    ∀ s ∈ rel, s ≠ ".git" ∧ s ≠ "node_modules" := by
  induction hrr with
  | here n l cs hg => simp
  | step n l cs c rest hm hk hrr ih =>
      intro s hs
      rcases List.mem_cons.1 hs with hs | hs
      · subst hs
        exact ⟨(keep_props c hk).2.1, (keep_props c hk).2.2.1⟩
      · exact ih s hs

mutual

theorem walkRepos_nodup (t : FSTree) (pfx : List String)
    (hu : namesUniqT t = true) : (walkRepos pfx t).Nodup := by
  match t with
  | FSTree.file n => simp [walkRepos]
  | FSTree.dir n l cs =>
      simp only [namesUniqT, Bool.and_eq_true, decide_eq_true_eq] at hu
      have hdead : ".git" ∉ prunedDirNames cs := prunedDirNames_no_git cs
      have hforest : (walkForest pfx cs).Nodup :=
        walkForest_nodup cs pfx hu.2 hu.1
      have hout : pfx ∉ walkForest pfx cs := by
        intro hmem
        obtain ⟨c, rel, _, _, hpe, _⟩ := walkForest_sound cs pfx pfx hmem
        have := congrArg List.length hpe
        simp at this
      simp only [walkRepos, hdead, if_false, List.nil_append]
      by_cases h : ".git" ∈ dirNames cs
      · simp only [h, if_true, List.singleton_append, List.nodup_cons]
        exact ⟨hout, hforest⟩
      · simpa only [h, if_false, List.nil_append] using hforest

theorem walkForest_nodup (cs : FSForest) (pfx : List String)
    (hf : namesUniqF cs = true) (hn : (allNames cs).Nodup) :
    (walkForest pfx cs).Nodup := by
  match cs with
  | FSForest.nil => simp [walkForest]
  | FSForest.cons c cs' =>
      simp only [namesUniqF, Bool.and_eq_true] at hf
      simp only [allNames, List.nodup_cons] at hn
      have hleft : (if keep c then walkRepos (pfx ++ [c.fname]) c
          else []).Nodup := by
        by_cases hk : keep c
        · simpa only [hk, if_true] using
            walkRepos_nodup c (pfx ++ [c.fname]) hf.1
        · simp [hk]
      have hright : (walkForest pfx cs').Nodup :=
        walkForest_nodup cs' pfx hf.2 hn.2
      rw [walkForest, List.nodup_append]
      refine ⟨hleft, hright, ?_⟩
      intro p hp hps
      by_cases hk : keep c
      · simp only [hk, if_true] at hp
        obtain ⟨rel, hpe, _⟩ := walkRepos_sound c (pfx ++ [c.fname]) p hp
        obtain ⟨c', rel', hm', _, hpe', _⟩ := walkForest_sound cs' pfx p hps
        rw [hpe'] at hpe
        have hcanc : c'.fname :: rel' = c.fname :: rel := by
          have h3 : pfx ++ c'.fname :: rel' = pfx ++ (c.fname :: rel) := by
            simpa using hpe
          exact List.append_cancel_left h3
        have hname : c'.fname = c.fname := (List.cons.injEq _ _ _ _ ▸ hcanc).1
        exact hn.1 (hname ▸ memF_fname c' cs' hm')
      · simp [hk] at hp

end

/-- C7: every path produced by discovery is reached by a chain of
directory steps each of which survives the prune — a non-symlink directory
whose name is neither `.git` nor `node_modules` — so no output path
descends into the VCS marker directory, a `node_modules` directory, or a
symbolic link; a working copy inside such a directory, or reachable only
through a symlink, is never in the output. -/
theorem discovery_exclusions (t : FSTree) (pfx p : List String)
    (hp : p ∈ walkRepos pfx t) :
    ∃ rel, p = pfx ++ rel ∧ ReachRepo t rel ∧
      ∀ s ∈ rel, s ≠ ".git" ∧ s ≠ "node_modules" := by
  obtain ⟨rel, hpe, hrr⟩ := walkRepos_sound t pfx p hp
  exact ⟨rel, hpe, hrr, reachRepo_segments t rel hrr⟩

/-- C7 witness: in the concrete tree the nested repo `sub` is discovered
and its path is clean. -/
theorem discovery_exclusions_wit :
    ∃ rel, ["sub"] = [] ++ rel ∧ ReachRepo exTree rel ∧
      ∀ s ∈ rel, s ≠ ".git" ∧ s ≠ "node_modules" :=
  discovery_exclusions exTree [] ["sub"] (by decide)

/-- C8: on a well-formed filesystem (distinct sibling names) the discovery
output contains no duplicate paths, and a path is in the output exactly
when it is the traversal path of a working copy reached through pruned
descent — one output entry per discovered working copy, in traversal
order. -/
theorem discovery_output_unique (t : FSTree) (pfx : List String)
    (hu : namesUniqT t = true) :
    (walkRepos pfx t).Nodup ∧
    (∀ p, p ∈ walkRepos pfx t ↔ ∃ rel, p = pfx ++ rel ∧ ReachRepo t rel) := by
  refine ⟨walkRepos_nodup t pfx hu, fun p => ⟨fun hp =>
    walkRepos_sound t pfx p hp, ?_⟩⟩
  rintro ⟨rel, hpe, hrr⟩
  subst hpe
  exact walkRepos_complete t rel hrr pfx

/-- C8 witness: the concrete tree's discovery output is duplicate-free and
characterized by reachability. -/
theorem discovery_output_unique_wit :
    (walkRepos [] exTree).Nodup ∧
    (∀ p, p ∈ walkRepos [] exTree ↔
      ∃ rel, p = [] ++ rel ∧ ReachRepo exTree rel) :=
  discovery_output_unique exTree [] (by decide)

/-! ### Lemmas about the cache key -/

theorem hexDigitCh_inj (a b : Nat) (ha : a < 16) (hb : b < 16)
    (h : hexDigitCh a = hexDigitCh b) : a = b := by
  have key : ∀ x ∈ List.range 16, ∀ y ∈ List.range 16,
      hexDigitCh x = hexDigitCh y → x = y := by decide
  exact key a (List.mem_range.2 ha) b (List.mem_range.2 hb) h

theorem bytesToHex_inj (l1 l2 : List Nat) (h1 : ∀ b ∈ l1, b < 256)
    (h2 : ∀ b ∈ l2, b < 256) (he : bytesToHex l1 = bytesToHex l2) :
    l1 = l2 := by
  induction l1 generalizing l2 with
  | nil =>
      cases l2 with
      | nil => rfl
      | cons b t => simp [bytesToHex, byteToHex] at he
  | cons a t ih =>
      cases l2 with
      | nil => simp [bytesToHex, byteToHex] at he
      | cons b t2 =>
          simp only [bytesToHex, List.flatMap_cons, byteToHex,
            List.cons_append, List.nil_append, List.cons.injEq] at he
          obtain ⟨e1, e2, e3⟩ := he
          have ha : a < 256 := h1 a (by simp)
          have hb : b < 256 := h2 b (by simp)
          have hd1 : a / 16 = b / 16 :=
            hexDigitCh_inj _ _ (by omega) (by omega) e1
          have hd2 : a % 16 = b % 16 :=
            hexDigitCh_inj _ _ (by omega) (by omega) e2
          have hab : a = b := by omega
          have ht : t = t2 :=
            ih t2 (fun x hx => h1 x (by simp [hx]))
              (fun x hx => h2 x (by simp [hx]))
              (by simpa [bytesToHex] using e3)
          rw [hab, ht]

theorem sha256_bytes_lt (msg : List Nat) : ∀ b ∈ sha256 msg, b < 256 := by
  intro b hb
  simp only [sha256, List.mem_flatMap] at hb
  obtain ⟨w, _, hw⟩ := hb
  simp only [wordBytes, List.mem_cons, List.not_mem_nil, or_false] at hw
  rcases hw with h | h | h | h <;> omega

/-- C3: the cache key of a URL is the lowercase SHA-256 hex digest of its
UTF-8 encoding; the computation is a pure function, so the same URL always
yields the same key; and two URLs receive the same key only when their
SHA-256 digests collide (hex encoding is injective on digests). -/
theorem compute_cache_key_sha256 :
    (∀ u : String, compute_cache_key u =
      String.mk (bytesToHex (sha256 (strBytes u)))) ∧
    (∀ u : String, compute_cache_key u = compute_cache_key u) ∧
    (∀ u1 u2 : String, compute_cache_key u1 = compute_cache_key u2 →
      sha256 (strBytes u1) = sha256 (strBytes u2)) := by
  refine ⟨fun u => rfl, fun u => rfl, ?_⟩
  intro u1 u2 h
  have hc : bytesToHex (sha256 (strBytes u1)) =
      bytesToHex (sha256 (strBytes u2)) := by
    simpa [compute_cache_key] using congrArg String.data h
  exact bytesToHex_inj _ _ (sha256_bytes_lt _) (sha256_bytes_lt _) hc

/-- C3 witness: the collision-transfer conjunct applied at a concrete URL
whose key trivially equals itself. -/
theorem compute_cache_key_sha256_wit :
    sha256 (strBytes "https://example.com/repo.git") =
      sha256 (strBytes "https://example.com/repo.git") :=
  compute_cache_key_sha256.2.2 "https://example.com/repo.git"
    "https://example.com/repo.git" rfl

end GitCloneCache

